import Mathlib

/-!
Shallow embedding of the workflow engine in `app/engine.py`.

The engine maintains graphs (named nodes plus a static edge map), runs them
synchronously against a shared mutable state, and records a per-step log.
Python's mutable values are modelled with an explicit heap: a `Value` is
either an immediate (int, string, None) or a reference `vRef` into the heap
of nested mutable objects (lists/dicts).  A Python dict's top level is an
association list of string keys; `dict(d)` — Python's shallow copy — copies
that top-level association list while `vRef` entries keep pointing at the
same heap cells, which is exactly how the source's `dict(run.state)`
snapshots behave.

Node logic (`NodeFn`) is modelled as a function from the state dict and the
heap to a possibly-raising result: it returns the optional next-node
override together with the state dict and heap as mutated up to the point
of return (or up to the point the exception was raised).  The tool table is
passed through unchanged to every invocation and is opaque to the engine
(the spec excludes the concrete tools), so it carries no information and is
omitted from the model.  Wall-clock timestamps (`started_at`/`finished_at`)
are likewise outside the model.
-/

/-- A Python value stored in a dict: immediates, or a reference to a
mutable heap object. -/
inductive Value where
  | vInt : Int → Value
  | vStr : String → Value
  | vNone : Value
  | vRef : Nat → Value
deriving DecidableEq, Repr

/-- A mutable heap object (a nested list or dict reachable from a state). -/
inductive HObj where
  | hList : List Value → HObj
  | hDict : List (String × Value) → HObj
deriving DecidableEq, Repr

/-- The heap of mutable objects, addressed by `Value.vRef` indices. -/
abbrev Heap : Type := List HObj

/-- The top level of a Python dict with string keys (`State = Dict[str, Any]`). -/
abbrev Dict : Type := List (String × Value)

/-- Python dict lookup `d.get(k)` / `d[k]`: first binding for the key. -/
def dlookup {α : Type} (k : String) : List (String × α) → Option α
  | [] => none
  | (k2, v) :: rest => if k = k2 then some v else dlookup k rest

/-- Read heap cell `r`. -/
def hget : Heap → Nat → Option HObj
  | [], _ => none
  | o :: _, 0 => some o
  | _ :: rest, n + 1 => hget rest n

/-- Overwrite heap cell `r` (an in-place mutation of a nested object). -/
def hset : Heap → Nat → HObj → Heap
  | [], _, _ => []
  | _ :: rest, 0, o => o :: rest
  | x :: rest, n + 1, o => x :: hset rest n o

/-- Observe, through heap `h`, the mutable object that key `k` of dict `d`
references.  Snapshots and caller-held dicts are read through the current
heap, so later in-place mutations of a shared cell are visible here. -/
def readThrough (h : Heap) (d : Dict) (k : String) : Option HObj :=
  match dlookup k d with
  | some (Value.vRef r) => hget h r
  | _ => none

/-- Python exceptions the engine can raise or propagate. -/
inductive PyErr where
  | keyError : String → PyErr
  | valueError : String → PyErr
deriving DecidableEq, Repr

/-- `NodeFn = Callable[[State, Dict[str, ToolFn]], Optional[str]]`: node
logic takes the mutable state (and the opaque tool table, omitted) and
either returns an optional next-node override or raises.  The returned
dict and heap are the state as mutated by the call — mutations performed
before an exception persist, as in Python. -/
def NodeFn : Type := Dict → Heap → (Except PyErr (Option String)) × Dict × Heap

/-- `@dataclass NodeDef`. -/
structure NodeDef where
  name : String
  func : NodeFn
  description : String

/-- `@dataclass GraphDef`: `edges` maps a node name to an optional next
node name (`None` meaning stop); an absent key also means stop. -/
structure GraphDef where
  id : String
  name : String
  nodes : List (String × NodeDef)
  edges : List (String × Option String)
  start_node : String

/-- One entry of `run.log` (a dict in the source). -/
structure LogEntry where
  step : Nat
  node : String
  before : Dict
  after : Dict
  next_override : Option String
deriving DecidableEq, Repr

/-- `@dataclass RunRecord` (wall-clock timestamps omitted). -/
structure RunRecord where
  id : String
  graph_id : String
  state : Dict
  current_node : Option String
  log : List LogEntry
  finished : Bool
deriving DecidableEq, Repr

/-- The mutable locals of one `run_graph` loop: the run record's mutable
fields (`state`, `current_node`, `log`), the local counter `step`, and the
heap of nested objects. -/
structure LoopSt where
  state : Dict
  current : Option String
  log : List LogEntry
  step : Nat
  heap : Heap

/-- Outcome of one pass through the `while` body (or of its guard). -/
inductive StepOut where
  | done : StepOut
  | next : LoopSt → StepOut
  | err : LoopSt → PyErr → StepOut

/-- One iteration of the run loop, from `engine.py` lines 154-179:
look up the current node (`graph.nodes[run.current_node]`, a `KeyError`
if absent), snapshot `before = dict(run.state)`, invoke the node, snapshot
`after`, append the log entry, then transition: a non-None override wins,
otherwise `graph.edges.get(node_def.name)`.  If the node raises, its state
mutations persist but no log entry is appended and the transition does not
happen. -/
def stepOnce (g : GraphDef) (ls : LoopSt) : StepOut :=
  match ls.current with
  | none => StepOut.done
  | some cn =>
    match dlookup cn g.nodes with
    | none => StepOut.err ls (PyErr.keyError cn)
    | some node_def =>
      let before := ls.state
      match node_def.func ls.state ls.heap with
      | (Except.error e, st2, h2) =>
        StepOut.err { ls with state := st2, heap := h2 } e
      | (Except.ok next_override, st2, h2) =>
        let after := st2
        let entry : LogEntry :=
          { step := ls.step, node := node_def.name,
            before := before, after := after,
            next_override := next_override }
        let nextNode : Option String :=
          match next_override with
          | some v => some v
          | none => Option.join (dlookup node_def.name g.edges)
        StepOut.next
          { state := st2, current := nextNode,
            log := ls.log ++ [entry], step := ls.step + 1, heap := h2 }

/-- The `while run.current_node is not None and step < max_steps` loop.
The fuel argument is the number of remaining permitted iterations
(`max_steps - step`); it decrements in lockstep with `step += 1`.  On an
exception the loop state so far is returned together with the error, which
propagates to the caller. -/
def runLoop (g : GraphDef) : Nat → LoopSt → LoopSt × Option PyErr
  | 0, ls => (ls, none)
  | fuel + 1, ls =>
    match stepOnce g ls with
    | StepOut.done => (ls, none)
    | StepOut.err ls2 e => (ls2, some e)
    | StepOut.next ls2 => runLoop g fuel ls2

/-- The engine's mutable collections: the node registry (the tool registry
is opaque and omitted), the graph table, the run table, and a counter
standing in for `uuid.uuid4()` freshness. -/
structure Engine where
  node_registry : List (String × NodeFn)
  graphs : List (String × GraphDef)
  runs : List (String × RunRecord)
  nextId : Nat

/-- `Engine.add_graph`. -/
def Engine.add_graph (eng : Engine) (graph : GraphDef) : Engine :=
  { eng with graphs := (graph.id, graph) :: eng.graphs }

/-- The node-resolution loop of `create_graph_from_spec`: for each
`(node_name, fn_name)` in insertion order, `self.node_registry.get(fn_name)`
raises `KeyError(fn_name)` if the function is not registered. -/
def resolveNodes (reg : List (String × NodeFn)) :
    List (String × String) → Except PyErr (List (String × NodeDef))
  | [] => Except.ok []
  | (node_name, fn_name) :: rest =>
    match dlookup fn_name reg with
    | none => Except.error (PyErr.keyError fn_name)
    | some fn =>
      match resolveNodes reg rest with
      | Except.error e => Except.error e
      | Except.ok nodes =>
        Except.ok ((node_name,
          { name := node_name, func := fn, description := "" }) :: nodes)

/-- `Engine.create_graph_from_spec`: resolve every node function, check the
start node, then assemble and register the graph.  The uuid is drawn before
validation, as in the source. -/
def Engine.create_graph_from_spec (eng : Engine) (name : String)
    (node_specs : List (String × String)) (edges : List (String × Option String))
    (start_node : String) : Engine × Except PyErr GraphDef :=
  let graph_id := "uuid-" ++ toString eng.nextId
  let eng1 : Engine := { eng with nextId := eng.nextId + 1 }
  match resolveNodes eng.node_registry node_specs with
  | Except.error e => (eng1, Except.error e)
  | Except.ok nodes =>
    if (dlookup start_node nodes).isSome then
      let graph : GraphDef :=
        { id := graph_id, name := name, nodes := nodes,
          edges := edges, start_node := start_node }
      (eng1.add_graph graph, Except.ok graph)
    else
      (eng1, Except.error (PyErr.valueError
        ("start_node " ++ start_node ++ " not in nodes")))

/-- The id `uuid.uuid4()` would assign to the run record created by the
next `run_graph` call on this engine. -/
def freshRunId (eng : Engine) : String := "run-" ++ toString eng.nextId

/-- The result of `run_graph` as observed by the caller and by the engine's
tables: the engine afterwards, the heap afterwards, and either the returned
run record or the exception that propagated. -/
structure RunOutcome where
  engine : Engine
  heap : Heap
  result : Except PyErr RunRecord

/-- `Engine.run_graph`: raise `KeyError` for an unknown graph; copy
`initial_state or {}` at top level (`dict(...)` — nested `vRef`s stay
shared); create the run record at `start_node`, store it, and drive the
loop.  On normal exit `finished` is set true; if a node raised, the stored
record keeps `finished = False` and the exception propagates. -/
def Engine.run_graph (eng : Engine) (graph_id : String)
    (initial_state : Option Dict) (heap : Heap) (max_steps : Nat) : RunOutcome :=
  match dlookup graph_id eng.graphs with
  | none =>
    { engine := eng, heap := heap,
      result := Except.error (PyErr.keyError ("Graph " ++ graph_id ++ " not found")) }
  | some graph =>
    let state : Dict := initial_state.getD []
    let run_id := freshRunId eng
    let eng1 : Engine := { eng with nextId := eng.nextId + 1 }
    let ls0 : LoopSt :=
      { state := state, current := some graph.start_node,
        log := [], step := 0, heap := heap }
    let out := runLoop graph max_steps ls0
    let run : RunRecord :=
      { id := run_id, graph_id := graph_id, state := out.1.state,
        current_node := out.1.current, log := out.1.log,
        finished := out.2.isNone }
    let eng2 : Engine := { eng1 with runs := (run_id, run) :: eng1.runs }
    { engine := eng2, heap := out.1.heap,
      result := match out.2 with
        | none => Except.ok run
        | some e => Except.error e }

/-- `run_graph` with the source's default `max_steps=100`. -/
def Engine.run_graph_default (eng : Engine) (graph_id : String)
    (initial_state : Option Dict) (heap : Heap) : RunOutcome :=
  eng.run_graph graph_id initial_state heap 100

/-- `Engine.get_run`. -/
def Engine.get_run (eng : Engine) (run_id : String) : Except PyErr RunRecord :=
  match dlookup run_id eng.runs with
  | none => Except.error (PyErr.keyError ("Run " ++ run_id ++ " not found"))
  | some r => Except.ok r

/-! ### Helper lemmas about the step loop -/

theorem stepOnce_done (g : GraphDef) (ls : LoopSt)
    (h : stepOnce g ls = StepOut.done) : ls.current = none := by
  unfold stepOnce at h
  split at h
  · assumption
  · split at h
    · cases h
    · split at h <;> cases h

theorem stepOnce_err_fields (g : GraphDef) (ls ls2 : LoopSt) (e : PyErr)
    (h : stepOnce g ls = StepOut.err ls2 e) :
    ls2.current = ls.current ∧ ls2.log = ls.log ∧ ls2.step = ls.step := by
  unfold stepOnce at h
  split at h
  · cases h
  · split at h
    · cases h
      exact ⟨rfl, rfl, rfl⟩
    · split at h
      · cases h
        exact ⟨rfl, rfl, rfl⟩
      · cases h

theorem stepOnce_next_fields (g : GraphDef) (ls ls2 : LoopSt)
    (h : stepOnce g ls = StepOut.next ls2) :
    ∃ entry, ls2.log = ls.log ++ [entry] ∧ entry.step = ls.step ∧
      ls2.step = ls.step + 1 := by
  unfold stepOnce at h
  split at h
  · cases h
  · split at h
    · cases h
    · split at h
      · cases h
      · cases h
        exact ⟨_, rfl, rfl, rfl⟩

theorem runLoop_done_eq (g : GraphDef) (fuel : Nat) (ls : LoopSt)
    (hs : stepOnce g ls = StepOut.done) :
    runLoop g (fuel + 1) ls = (ls, none) := by
  simp only [runLoop, hs]

theorem runLoop_err_eq (g : GraphDef) (fuel : Nat) (ls ls2 : LoopSt) (e : PyErr)
    (hs : stepOnce g ls = StepOut.err ls2 e) :
    runLoop g (fuel + 1) ls = (ls2, some e) := by
  simp only [runLoop, hs]

theorem runLoop_next_eq (g : GraphDef) (fuel : Nat) (ls ls2 : LoopSt)
    (hs : stepOnce g ls = StepOut.next ls2) :
    runLoop g (fuel + 1) ls = runLoop g fuel ls2 := by
  simp only [runLoop, hs]

/-- The step-index invariant: the log's `step` fields are exactly
`0, 1, ..., step - 1`. -/
def StepInv (ls : LoopSt) : Prop :=
  ls.log.map LogEntry.step = List.range ls.step

theorem stepOnce_next_inv (g : GraphDef) (ls ls2 : LoopSt)
    (hinv : StepInv ls) (h : stepOnce g ls = StepOut.next ls2) : StepInv ls2 := by
  obtain ⟨entry, hlog, hstep, hstep2⟩ := stepOnce_next_fields g ls ls2 h
  unfold StepInv at hinv ⊢
  rw [hlog, hstep2, List.map_append, hinv, List.range_succ, List.map_cons,
    List.map_nil, hstep]

theorem runLoop_inv (g : GraphDef) :
    ∀ (fuel : Nat) (ls : LoopSt), StepInv ls → StepInv (runLoop g fuel ls).1 := by
  intro fuel
  induction fuel with
  | zero => intro ls h; exact h
  | succ fuel ih =>
    intro ls h
    unfold runLoop
    cases hs : stepOnce g ls with
    | done => exact h
    | err ls2 e =>
      have := stepOnce_err_fields g ls ls2 e hs
      unfold StepInv at h ⊢
      rw [this.2.1, this.2.2]; exact h
    | next ls2 => exact ih ls2 (stepOnce_next_inv g ls ls2 h hs)

theorem stepInv_length (ls : LoopSt) (h : StepInv ls) : ls.log.length = ls.step := by
  have := congrArg List.length h
  simpa using this

theorem runLoop_len_le (g : GraphDef) :
    ∀ (fuel : Nat) (ls : LoopSt),
      (runLoop g fuel ls).1.log.length ≤ ls.log.length + fuel := by
  intro fuel
  induction fuel with
  | zero => intro ls; simp [runLoop]
  | succ fuel ih =>
    intro ls
    cases hs : stepOnce g ls with
    | done =>
      rw [runLoop_done_eq g fuel ls hs]
      show ls.log.length ≤ ls.log.length + (fuel + 1)
      omega
    | err ls2 e =>
      rw [runLoop_err_eq g fuel ls ls2 e hs]
      have hf := stepOnce_err_fields g ls ls2 e hs
      simp only [hf.2.1]
      omega
    | next ls2 =>
      rw [runLoop_next_eq g fuel ls ls2 hs]
      obtain ⟨entry, hlog, _, _⟩ := stepOnce_next_fields g ls ls2 hs
      have hle := ih ls2
      rw [hlog] at hle
      simp only [List.length_append, List.length_cons, List.length_nil] at hle
      omega

theorem runLoop_exit (g : GraphDef) :
    ∀ (fuel : Nat) (ls : LoopSt), (runLoop g fuel ls).2 = none →
      (runLoop g fuel ls).1.current = none ∨
        (runLoop g fuel ls).1.step = ls.step + fuel := by
  intro fuel
  induction fuel with
  | zero => intro ls _; right; rfl
  | succ fuel ih =>
    intro ls hnone
    unfold runLoop at hnone ⊢
    cases hs : stepOnce g ls with
    | done => left; exact stepOnce_done g ls hs
    | err ls2 e => rw [hs] at hnone; cases hnone
    | next ls2 =>
      rw [hs] at hnone
      obtain ⟨_, _, _, hstep2⟩ := stepOnce_next_fields g ls ls2 hs
      rcases ih ls2 hnone with h | h
      · left; exact h
      · right; rw [h, hstep2]; omega

theorem runLoop_err_len (g : GraphDef) :
    ∀ (fuel : Nat) (ls : LoopSt) (e : PyErr), (runLoop g fuel ls).2 = some e →
      (runLoop g fuel ls).1.log.length < ls.log.length + fuel := by
  intro fuel
  induction fuel with
  | zero => intro ls e h; cases h
  | succ fuel ih =>
    intro ls e herr
    cases hs : stepOnce g ls with
    | done =>
      rw [runLoop_done_eq g fuel ls hs] at herr; cases herr
    | err ls2 e2 =>
      rw [runLoop_err_eq g fuel ls ls2 e2 hs]
      have hf := stepOnce_err_fields g ls ls2 e2 hs
      simp only [hf.2.1]
      omega
    | next ls2 =>
      rw [runLoop_next_eq g fuel ls ls2 hs] at herr ⊢
      obtain ⟨entry, hlog, _, _⟩ := stepOnce_next_fields g ls ls2 hs
      have hlt := ih ls2 e herr
      rw [hlog] at hlt
      simp only [List.length_append, List.length_cons, List.length_nil] at hlt
      omega

theorem runLoop_err_exists (g : GraphDef) :
    ∀ (fuel : Nat) (ls ls2 : LoopSt) (e : PyErr), runLoop g fuel ls = (ls2, some e) →
      ∃ lsF, stepOnce g lsF = StepOut.err ls2 e := by
  intro fuel
  induction fuel with
  | zero => intro ls ls2 e h; cases h
  | succ fuel ih =>
    intro ls ls2 e h
    unfold runLoop at h
    cases hs : stepOnce g ls with
    | done => rw [hs] at h; cases h
    | err ls3 e2 =>
      rw [hs] at h
      cases h
      exact ⟨ls, hs⟩
    | next ls3 =>
      rw [hs] at h
      exact ih ls3 ls2 e h

theorem stepOnce_err_inv (g : GraphDef) (ls ls2 : LoopSt) (e : PyErr)
    (h : stepOnce g ls = StepOut.err ls2 e) :
    ∃ cn, ls.current = some cn ∧
      ((dlookup cn g.nodes = none ∧ ls2 = ls ∧ e = PyErr.keyError cn) ∨
       (∃ nd st2 h2, dlookup cn g.nodes = some nd ∧
          nd.func ls.state ls.heap = (Except.error e, st2, h2) ∧
          ls2.state = st2 ∧ ls2.current = ls.current ∧ ls2.log = ls.log ∧
          ls2.step = ls.step ∧ ls2.heap = h2)) := by
  unfold stepOnce at h
  split at h
  · cases h
  · rename_i cn hcur
    refine ⟨cn, hcur, ?_⟩
    split at h
    · rename_i hnd
      cases h
      exact Or.inl ⟨hnd, rfl, rfl⟩
    · rename_i nd hnd
      split at h
      · rename_i e2 st2 h2 hfn
        cases h
        exact Or.inr ⟨nd, st2, h2, hnd, hfn, rfl, rfl, rfl, rfl, rfl⟩
      · cases h

theorem stepOnce_next_full (g : GraphDef) (ls ls2 : LoopSt)
    (h : stepOnce g ls = StepOut.next ls2) :
    ∃ cn nd ov st2 h2, ls.current = some cn ∧ dlookup cn g.nodes = some nd ∧
      nd.func ls.state ls.heap = (Except.ok ov, st2, h2) ∧
      ls2.state = st2 ∧
      ls2.current = (match ov with
        | some v => some v
        | none => Option.join (dlookup nd.name g.edges)) ∧
      ls2.log = ls.log ++ [⟨ls.step, nd.name, ls.state, st2, ov⟩] ∧
      ls2.step = ls.step + 1 ∧ ls2.heap = h2 := by
  unfold stepOnce at h
  split at h
  · cases h
  · rename_i cn hcur
    split at h
    · cases h
    · rename_i nd hnd
      split at h
      · cases h
      · rename_i ov st2 h2 hfn
        cases h
        exact ⟨cn, nd, ov, st2, h2, hcur, hnd, hfn, rfl, rfl, rfl, rfl, rfl⟩

theorem runLoop_heap (g : GraphDef)
    (hpure : ∀ (cn : String) (nd : NodeDef), dlookup cn g.nodes = some nd →
      ∀ (s : Dict) (h : Heap), (nd.func s h).2.2 = h) :
    ∀ (fuel : Nat) (ls : LoopSt), (runLoop g fuel ls).1.heap = ls.heap := by
  intro fuel
  induction fuel with
  | zero => intro ls; rfl
  | succ fuel ih =>
    intro ls
    cases hs : stepOnce g ls with
    | done => rw [runLoop_done_eq g fuel ls hs]
    | err ls2 e =>
      rw [runLoop_err_eq g fuel ls ls2 e hs]
      obtain ⟨cn, hcur, hcase⟩ := stepOnce_err_inv g ls ls2 e hs
      rcases hcase with ⟨_, hls, _⟩ | ⟨nd, st2, h2, hnd, hfn, _, _, _, _, hheap⟩
      · rw [hls]
      · have hp := hpure cn nd hnd ls.state ls.heap
        rw [hfn] at hp
        rw [hheap]
        exact hp
    | next ls2 =>
      rw [runLoop_next_eq g fuel ls ls2 hs, ih ls2]
      obtain ⟨cn, nd, ov, st2, h2, hcur, hnd, hfn, _, _, _, _, hheap⟩ :=
        stepOnce_next_full g ls ls2 hs
      have hp := hpure cn nd hnd ls.state ls.heap
      rw [hfn] at hp
      rw [hheap]
      exact hp

/-! ### Bridging `run_graph` to the loop -/

/-- The loop state at the top of `run_graph`'s while loop: state copied at
top level from `initial_state or {}`, `current_node = graph.start_node`,
empty log, step counter 0. -/
def loopInit (g : GraphDef) (init : Option Dict) (heap : Heap) : LoopSt :=
  { state := init.getD [], current := some g.start_node,
    log := [], step := 0, heap := heap }

/-- The run record as it stands in the run table after `run_graph`. -/
def runRecordOf (eng : Engine) (gid : String) (g : GraphDef)
    (init : Option Dict) (heap : Heap) (ms : Nat) : RunRecord :=
  { id := freshRunId eng, graph_id := gid,
    state := (runLoop g ms (loopInit g init heap)).1.state,
    current_node := (runLoop g ms (loopInit g init heap)).1.current,
    log := (runLoop g ms (loopInit g init heap)).1.log,
    finished := (runLoop g ms (loopInit g init heap)).2.isNone }

theorem run_graph_eq (eng : Engine) (gid : String) (init : Option Dict)
    (heap : Heap) (ms : Nat) (g : GraphDef)
    (hg : dlookup gid eng.graphs = some g) :
    Engine.run_graph eng gid init heap ms =
      { engine := { node_registry := eng.node_registry, graphs := eng.graphs,
                    runs := (freshRunId eng, runRecordOf eng gid g init heap ms)
                      :: eng.runs,
                    nextId := eng.nextId + 1 },
        heap := (runLoop g ms (loopInit g init heap)).1.heap,
        result := match (runLoop g ms (loopInit g init heap)).2 with
          | none => Except.ok (runRecordOf eng gid g init heap ms)
          | some e => Except.error e } := by
  unfold Engine.run_graph
  rw [hg]
  rfl

/-! ### Concrete fixtures -/

/-- Scenario B node: unconditionally returns the override `"extract"`. -/
def loopNode : NodeDef :=
  { name := "extract",
    func := fun s h => (Except.ok (some "extract"), s, h),
    description := "" }

/-- Scenario B graph: a single node that self-loops via its override. -/
def loopGraph : GraphDef :=
  { id := "g-loop", name := "self-loop", nodes := [("extract", loopNode)],
    edges := [], start_node := "extract" }

def engLoop : Engine :=
  { node_registry := [], graphs := [("g-loop", loopGraph)], runs := [],
    nextId := 0 }

/-- Claim C1: at every run step, a non-null return value from the node's
logic unconditionally becomes the next `current_node`, regardless of the
static edge; only a null return falls back to the graph's static `edges`
entry for that node (absent or null meaning terminate). -/
theorem transition_override_precedence (g : GraphDef) (ls : LoopSt)
    (cn : String) (nd : NodeDef) (ov : Option String) (st2 : Dict) (h2 : Heap)
    (hcur : ls.current = some cn)
    (hnd : dlookup cn g.nodes = some nd)
    (hfn : nd.func ls.state ls.heap = (Except.ok ov, st2, h2)) :
    ∃ ls2, stepOnce g ls = StepOut.next ls2 ∧
      (∀ v, ov = some v → ls2.current = some v) ∧
      (ov = none → ls2.current = Option.join (dlookup nd.name g.edges)) := by
  refine ⟨{ state := st2,
            current := (match ov with
              | some v => some v
              | none => Option.join (dlookup nd.name g.edges)),
            log := ls.log ++ [⟨ls.step, nd.name, ls.state, st2, ov⟩],
            step := ls.step + 1, heap := h2 }, ?_, ?_, ?_⟩
  · simp only [stepOnce, hcur, hnd, hfn]
    cases ov <;> rfl
  · intro v hv; subst hv; rfl
  · intro hv; subst hv; rfl

theorem transition_override_precedence_witness :
    ∃ ls2, stepOnce loopGraph
        { state := [], current := some "extract", log := [], step := 0, heap := [] }
        = StepOut.next ls2 ∧
      (∀ v, (some "extract" : Option String) = some v → ls2.current = some v) ∧
      ((some "extract" : Option String) = none →
        ls2.current = Option.join (dlookup loopNode.name loopGraph.edges)) :=
  transition_override_precedence loopGraph
    { state := [], current := some "extract", log := [], step := 0, heap := [] }
    "extract" loopNode (some "extract") [] [] rfl rfl rfl

/-- Claim C7: hitting the step ceiling is not an error.  Scenario B: a node
unconditionally returning the override `"extract"` run with `max_steps = 5`
yields a normal result whose log has length 5, `finished = true`, and
`current_node = "extract"`. -/
theorem step_ceiling_scenario :
    ∃ rec, (engLoop.run_graph "g-loop" none [] 5).result = Except.ok rec ∧
      rec.log.length = 5 ∧ rec.finished = true ∧
      rec.current_node = some "extract" := by
  exact ⟨_, rfl, rfl, rfl, rfl⟩

/-- Claim C10: with `max_steps = 0` the loop body never runs: the result is
a normal (finished) run record with an empty log, `current_node` still the
graph's start node, the state a top-level copy of the initial state, and
the record stored in the engine's run table; the heap is untouched. -/
theorem zero_max_steps_run (eng : Engine) (gid : String) (init : Option Dict)
    (heap : Heap) (g : GraphDef) (hg : dlookup gid eng.graphs = some g) :
    (eng.run_graph gid init heap 0).result = Except.ok
      { id := freshRunId eng, graph_id := gid, state := init.getD [],
        current_node := some g.start_node, log := [], finished := true } ∧
    dlookup (freshRunId eng) (eng.run_graph gid init heap 0).engine.runs = some
      { id := freshRunId eng, graph_id := gid, state := init.getD [],
        current_node := some g.start_node, log := [], finished := true } ∧
    (eng.run_graph gid init heap 0).heap = heap := by
  rw [run_graph_eq eng gid init heap 0 g hg]
  refine ⟨rfl, ?_, rfl⟩
  simp only [dlookup, if_pos rfl]
  rfl

theorem zero_max_steps_run_witness :
    (engLoop.run_graph "g-loop" none [] 0).result = Except.ok
      { id := freshRunId engLoop, graph_id := "g-loop", state := [],
        current_node := some loopGraph.start_node, log := [], finished := true } ∧
    dlookup (freshRunId engLoop) (engLoop.run_graph "g-loop" none [] 0).engine.runs
      = some
      { id := freshRunId engLoop, graph_id := "g-loop", state := [],
        current_node := some loopGraph.start_node, log := [], finished := true } ∧
    (engLoop.run_graph "g-loop" none [] 0).heap = [] :=
  zero_max_steps_run engLoop "g-loop" none [] loopGraph rfl

theorem loopInit_inv (g : GraphDef) (init : Option Dict) (heap : Heap) :
    StepInv (loopInit g init heap) := rfl

/-- Claim C2: the loop ends exactly when `current_node` becomes null or the
step counter reaches `max_steps`; a run performs at most `max_steps`
invocations, so the log never exceeds `max_steps` entries (even an aborted
run logged fewer than `max_steps` steps); `max_steps` defaults to 100. -/
theorem run_step_ceiling_bound (eng : Engine) (gid : String) (init : Option Dict)
    (heap : Heap) (ms : Nat) (g : GraphDef)
    (hg : dlookup gid eng.graphs = some g) :
    (∀ rec, (eng.run_graph gid init heap ms).result = Except.ok rec →
      rec.log.length ≤ ms ∧ (rec.current_node = none ∨ rec.log.length = ms)) ∧
    (∀ e rec, (eng.run_graph gid init heap ms).result = Except.error e →
      dlookup (freshRunId eng) (eng.run_graph gid init heap ms).engine.runs = some rec →
      rec.log.length < ms) ∧
    eng.run_graph_default gid init heap = eng.run_graph gid init heap 100 := by
  rw [run_graph_eq eng gid init heap ms g hg]
  refine ⟨?_, ?_, rfl⟩
  · intro rec hrec
    cases hP : (runLoop g ms (loopInit g init heap)).2 with
    | some e =>
      rw [hP] at hrec
      dsimp only at hrec
      cases hrec
    | none =>
      rw [hP] at hrec
      dsimp only at hrec
      cases hrec
      constructor
      · have hle := runLoop_len_le g ms (loopInit g init heap)
        simpa [runRecordOf, loopInit] using hle
      · have hlen : (runLoop g ms (loopInit g init heap)).1.log.length =
            (runLoop g ms (loopInit g init heap)).1.step :=
          stepInv_length _ (runLoop_inv g ms _ (loopInit_inv g init heap))
        rcases runLoop_exit g ms (loopInit g init heap) hP with h | h
        · left
          exact h
        · right
          show (runLoop g ms (loopInit g init heap)).1.log.length = ms
          rw [hlen, h]
          simp [loopInit]
  · intro e rec hre hrec
    cases hP : (runLoop g ms (loopInit g init heap)).2 with
    | none =>
      rw [hP] at hre
      dsimp only at hre
      cases hre
    | some e2 =>
      simp only [dlookup, if_pos rfl] at hrec
      cases hrec
      have hlt := runLoop_err_len g ms (loopInit g init heap) e2 hP
      simpa [runRecordOf, loopInit] using hlt

theorem run_step_ceiling_bound_witness :
    (runRecordOf engLoop "g-loop" loopGraph none [] 5).log.length ≤ 5 ∧
    ((runRecordOf engLoop "g-loop" loopGraph none [] 5).current_node = none ∨
     (runRecordOf engLoop "g-loop" loopGraph none [] 5).log.length = 5) :=
  (run_step_ceiling_bound engLoop "g-loop" none [] 5 loopGraph rfl).1
    (runRecordOf engLoop "g-loop" loopGraph none [] 5) rfl

/-- Claim C8: in every run record produced by `run_graph` — normal or
aborted — the log's `step` fields are exactly `0, 1, ..., N-1` in order,
where N is the number of node invocations that completed. -/
theorem log_step_indices (eng : Engine) (gid : String) (init : Option Dict)
    (heap : Heap) (ms : Nat) (g : GraphDef)
    (hg : dlookup gid eng.graphs = some g) :
    (∀ rec, (eng.run_graph gid init heap ms).result = Except.ok rec →
      rec.log.map LogEntry.step = List.range rec.log.length) ∧
    (∀ e rec, (eng.run_graph gid init heap ms).result = Except.error e →
      dlookup (freshRunId eng) (eng.run_graph gid init heap ms).engine.runs = some rec →
      rec.log.map LogEntry.step = List.range rec.log.length) := by
  rw [run_graph_eq eng gid init heap ms g hg]
  have hinv := runLoop_inv g ms (loopInit g init heap) (loopInit_inv g init heap)
  have hlen := stepInv_length _ hinv
  unfold StepInv at hinv
  constructor
  · intro rec hrec
    cases hP : (runLoop g ms (loopInit g init heap)).2 with
    | some e =>
      rw [hP] at hrec
      dsimp only at hrec
      cases hrec
    | none =>
      rw [hP] at hrec
      dsimp only at hrec
      cases hrec
      show (runLoop g ms (loopInit g init heap)).1.log.map LogEntry.step =
        List.range (runLoop g ms (loopInit g init heap)).1.log.length
      rw [hinv, hlen]
  · intro e rec _ hrec
    simp only [dlookup, if_pos rfl] at hrec
    cases hrec
    show (runLoop g ms (loopInit g init heap)).1.log.map LogEntry.step =
      List.range (runLoop g ms (loopInit g init heap)).1.log.length
    rw [hinv, hlen]

theorem log_step_indices_witness :
    (runRecordOf engLoop "g-loop" loopGraph none [] 3).log.map LogEntry.step =
      List.range (runRecordOf engLoop "g-loop" loopGraph none [] 3).log.length :=
  (log_step_indices engLoop "g-loop" none [] 3 loopGraph rfl).1
    (runRecordOf engLoop "g-loop" loopGraph none [] 3) rfl

/-- A node whose logic always raises `ValueError("boom")`. -/
def failNode : NodeDef :=
  { name := "boom",
    func := fun s h => (Except.error (PyErr.valueError "boom"), s, h),
    description := "" }

def failGraph : GraphDef :=
  { id := "g-fail", name := "fail", nodes := [("boom", failNode)],
    edges := [], start_node := "boom" }

def engFail : Engine :=
  { node_registry := [], graphs := [("g-fail", failGraph)], runs := [],
    nextId := 0 }

/-- Claim C6: a node-logic exception is not caught: the error propagates
(the run result is that error), the stored run record keeps
`finished = false`, its log holds exactly the completed steps `0..N-1`, and
the record is the loop state just before the failing iteration — the
failing iteration (which may also be the unknown-node lookup) appended no
log entry and performed no transition. -/
theorem node_error_aborts_run (eng : Engine) (gid : String) (init : Option Dict)
    (heap : Heap) (ms : Nat) (g : GraphDef) (e : PyErr)
    (hg : dlookup gid eng.graphs = some g)
    (herr : (eng.run_graph gid init heap ms).result = Except.error e) :
    ∃ rec, dlookup (freshRunId eng) (eng.run_graph gid init heap ms).engine.runs
        = some rec ∧
      rec.finished = false ∧
      rec.log.map LogEntry.step = List.range rec.log.length ∧
      ∃ lsF, stepOnce g lsF = StepOut.err
          { state := rec.state, current := rec.current_node, log := rec.log,
            step := rec.log.length, heap := (eng.run_graph gid init heap ms).heap } e ∧
        lsF.log = rec.log ∧ lsF.current = rec.current_node := by
  rw [run_graph_eq eng gid init heap ms g hg] at herr ⊢
  have hinv := runLoop_inv g ms (loopInit g init heap) (loopInit_inv g init heap)
  have hlen := stepInv_length _ hinv
  unfold StepInv at hinv
  cases hP : (runLoop g ms (loopInit g init heap)).2 with
  | none =>
    rw [hP] at herr
    dsimp only at herr
    cases herr
  | some e2 =>
    rw [hP] at herr
    dsimp only at herr
    cases herr
    refine ⟨runRecordOf eng gid g init heap ms, ?_, ?_, ?_, ?_⟩
    · simp only [dlookup, eq_self_iff_true, if_true]
    · show (runLoop g ms (loopInit g init heap)).2.isNone = false
      rw [hP]
      rfl
    · show (runLoop g ms (loopInit g init heap)).1.log.map LogEntry.step =
        List.range (runLoop g ms (loopInit g init heap)).1.log.length
      rw [hinv, hlen]
    · have hPeq : runLoop g ms (loopInit g init heap) =
          ((runLoop g ms (loopInit g init heap)).1, some e) := by
        rw [← hP]
      obtain ⟨lsF, hstep⟩ := runLoop_err_exists g ms (loopInit g init heap)
        (runLoop g ms (loopInit g init heap)).1 e hPeq
      have hfields := stepOnce_err_fields g lsF
        (runLoop g ms (loopInit g init heap)).1 e hstep
      refine ⟨lsF, ?_, hfields.2.1.symm, hfields.1.symm⟩
      have hfix : ({ state := (runLoop g ms (loopInit g init heap)).1.state,
                     current := (runLoop g ms (loopInit g init heap)).1.current,
                     log := (runLoop g ms (loopInit g init heap)).1.log,
                     step := (runLoop g ms (loopInit g init heap)).1.log.length,
                     heap := (runLoop g ms (loopInit g init heap)).1.heap } : LoopSt) =
          (runLoop g ms (loopInit g init heap)).1 := by
        rw [hlen]
      show stepOnce g lsF = StepOut.err
          { state := (runLoop g ms (loopInit g init heap)).1.state,
            current := (runLoop g ms (loopInit g init heap)).1.current,
            log := (runLoop g ms (loopInit g init heap)).1.log,
            step := (runLoop g ms (loopInit g init heap)).1.log.length,
            heap := (runLoop g ms (loopInit g init heap)).1.heap } e
      rw [hfix]
      exact hstep

theorem node_error_aborts_run_witness :
    ∃ rec, dlookup (freshRunId engFail)
        (engFail.run_graph "g-fail" none [] 10).engine.runs = some rec ∧
      rec.finished = false ∧
      rec.log.map LogEntry.step = List.range rec.log.length ∧
      ∃ lsF, stepOnce failGraph lsF = StepOut.err
          { state := rec.state, current := rec.current_node, log := rec.log,
            step := rec.log.length, heap := (engFail.run_graph "g-fail" none [] 10).heap }
          (PyErr.valueError "boom") ∧
        lsF.log = rec.log ∧ lsF.current = rec.current_node :=
  node_error_aborts_run engFail "g-fail" none [] 10 failGraph
    (PyErr.valueError "boom") rfl rfl

/-- A node that overrides with a name that is not a key of the graph's
node mapping. -/
def bogusNode : NodeDef :=
  { name := "a", func := fun s h => (Except.ok (some "bogus"), s, h),
    description := "" }

def bogusGraph : GraphDef :=
  { id := "g-bogus", name := "bogus", nodes := [("a", bogusNode)],
    edges := [("a", none)], start_node := "a" }

def engBogus : Engine :=
  { node_registry := [], graphs := [("g-bogus", bogusGraph)], runs := [],
    nextId := 0 }

/-- Counterexample to claim C4 as stated: nothing validates a node's
override, so after node `"a"` returns `"bogus"`, the next iteration's
`current_node` is `"bogus"`, which is not a key of the node mapping, and
the lookup at the top of the loop fails with a `KeyError`. -/
theorem current_node_validity_counterexample :
    (engBogus.run_graph "g-bogus" none [] 10).result
        = Except.error (PyErr.keyError "bogus") ∧
    dlookup "bogus" bogusGraph.nodes = none ∧
    ∃ rec, dlookup (freshRunId engBogus)
        (engBogus.run_graph "g-bogus" none [] 10).engine.runs = some rec ∧
      rec.current_node = some "bogus" := by
  exact ⟨rfl, rfl, _, rfl, rfl⟩

/-- Claim C4 (amended): the loop invariant "`current_node` is null or a key
of the node mapping" holds at every iteration provided every non-null
override returned by the graph's node logic and every non-null static edge
target is a key of the node mapping (and it holds at entry); under that
proviso the node lookup never fails — the loop can only abort through a
node-logic error.  Without the proviso the invariant fails (see the
counterexample). -/
theorem current_node_validity_amended (g : GraphDef)
    (hov : ∀ cn nd, dlookup cn g.nodes = some nd →
      ∀ s h o s2 h2, nd.func s h = (Except.ok o, s2, h2) →
        ∀ v, o = some v → (dlookup v g.nodes).isSome)
    (hedges : ∀ k t, dlookup k g.edges = some t →
      ∀ v, t = some v → (dlookup v g.nodes).isSome) :
    ∀ (fuel : Nat) (ls : LoopSt),
      (∀ cn, ls.current = some cn → (dlookup cn g.nodes).isSome) →
      (∀ cn, (runLoop g fuel ls).1.current = some cn →
        (dlookup cn g.nodes).isSome) ∧
      (∀ e, (runLoop g fuel ls).2 = some e →
        ∃ cn nd, dlookup cn g.nodes = some nd ∧
          ∃ s h s2 h2, nd.func s h = (Except.error e, s2, h2)) := by
  intro fuel
  induction fuel with
  | zero =>
    intro ls hcur
    exact ⟨hcur, fun e he => by cases he⟩
  | succ fuel ih =>
    intro ls hcur
    cases hs : stepOnce g ls with
    | done =>
      rw [runLoop_done_eq g fuel ls hs]
      exact ⟨hcur, fun e he => by cases he⟩
    | err ls2 e2 =>
      rw [runLoop_err_eq g fuel ls ls2 e2 hs]
      obtain ⟨cn, hc, hcase⟩ := stepOnce_err_inv g ls ls2 e2 hs
      rcases hcase with ⟨hnone, _, _⟩ | ⟨nd, st2, h2, hnd, hfn, _, hcur2, _, _, _⟩
      · have := hcur cn hc
        rw [hnone] at this
        cases this
      · refine ⟨?_, ?_⟩
        · intro cn2 hcn2
          rw [hcur2] at hcn2
          exact hcur cn2 hcn2
        · intro e he
          cases he
          exact ⟨cn, nd, hnd, ls.state, ls.heap, st2, h2, hfn⟩
    | next ls2 =>
      rw [runLoop_next_eq g fuel ls ls2 hs]
      obtain ⟨cn, nd, ov, st2, h2, hc, hnd, hfn, _, hcur2, _, _, _⟩ :=
        stepOnce_next_full g ls ls2 hs
      refine ih ls2 ?_
      intro cn2 hcn2
      rw [hcur2] at hcn2
      cases ov with
      | some v =>
        have hv : some v = some cn2 := hcn2
        cases hv
        exact hov cn nd hnd ls.state ls.heap (some cn2) st2 h2 hfn cn2 rfl
      | none =>
        have hj : Option.join (dlookup nd.name g.edges) = some cn2 := hcn2
        cases ht : dlookup nd.name g.edges with
        | none => rw [ht] at hj; cases hj
        | some t =>
          rw [ht] at hj
          cases t with
          | none => cases hj
          | some v =>
            have hv : v = cn2 := by cases hj; rfl
            subst hv
            exact hedges nd.name (some v) ht v rfl

theorem dlookup_singleton {A : Type} (k k2 : String) (v nd : A)
    (h : dlookup k [(k2, v)] = some nd) : nd = v := by
  unfold dlookup at h
  split at h
  · injection h with h2
    exact h2.symm
  · unfold dlookup at h
    cases h

theorem current_node_validity_amended_witness :
    (∀ cn, (runLoop loopGraph 5
        { state := [], current := some "extract", log := [], step := 0,
          heap := [] }).1.current = some cn →
      (dlookup cn loopGraph.nodes).isSome) ∧
    (∀ e, (runLoop loopGraph 5
        { state := [], current := some "extract", log := [], step := 0,
          heap := [] }).2 = some e →
      ∃ cn nd, dlookup cn loopGraph.nodes = some nd ∧
        ∃ s h s2 h2, nd.func s h = (Except.error e, s2, h2)) := by
  refine current_node_validity_amended loopGraph ?_ ?_ 5 _ ?_
  · intro cn nd hnd s h o s2 h2 hfn v hv
    subst hv
    have hndeq := dlookup_singleton cn "extract" loopNode nd hnd
    subst hndeq
    have hfn2 : ((Except.ok (some "extract") : Except PyErr (Option String)), s, h)
        = (Except.ok (some v), s2, h2) := hfn
    have hova : (Except.ok (some "extract") : Except PyErr (Option String))
        = Except.ok (some v) := congrArg Prod.fst hfn2
    have hsome : (some "extract" : Option String) = some v := by
      injection hova
    have hev : "extract" = v := by injection hsome
    subst hev
    decide
  · intro k t ht v hv
    simp [dlookup, loopGraph] at ht
  · intro cn hcn
    have h3 : (some "extract" : Option String) = some cn := hcn
    have h4 : "extract" = cn := by injection h3
    subst h4
    decide

theorem resolveNodes_missing (reg : List (String × NodeFn)) :
    ∀ (specs : List (String × String)),
      (∃ p, p ∈ specs ∧ dlookup p.2 reg = none) →
      ∃ f, resolveNodes reg specs = Except.error (PyErr.keyError f) ∧
        dlookup f reg = none ∧ ∃ n, (n, f) ∈ specs := by
  intro specs
  induction specs with
  | nil =>
    rintro ⟨p, hp, _⟩
    cases hp
  | cons hd rest ih =>
    rintro ⟨p, hp, hpn⟩
    obtain ⟨n0, f0⟩ := hd
    cases hl : dlookup f0 reg with
    | none =>
      refine ⟨f0, ?_, hl, n0, List.mem_cons_self _ _⟩
      simp [resolveNodes, hl]
    | some fn =>
      have hprest : p ∈ rest := by
        rcases List.mem_cons.mp hp with rfl | hmem
        · rw [hpn] at hl
          cases hl
        · exact hmem
      obtain ⟨f, hres, hnone, n, hmem⟩ := ih ⟨p, hprest, hpn⟩
      refine ⟨f, ?_, hnone, n, List.mem_cons_of_mem _ hmem⟩
      simp [resolveNodes, hl, hres]

theorem resolveNodes_all_ok (reg : List (String × NodeFn)) :
    ∀ (specs : List (String × String)),
      (∀ p, p ∈ specs → (dlookup p.2 reg).isSome) →
      ∃ nodes, resolveNodes reg specs = Except.ok nodes ∧
        (∀ k, dlookup k specs = none → dlookup k nodes = none) := by
  intro specs
  induction specs with
  | nil =>
    intro _
    exact ⟨[], rfl, fun k _ => rfl⟩
  | cons hd rest ih =>
    intro hall
    obtain ⟨n0, f0⟩ := hd
    cases hl : dlookup f0 reg with
    | none =>
      have := hall (n0, f0) (List.mem_cons_self _ _)
      rw [hl] at this
      cases this
    | some fn =>
      obtain ⟨nodes0, hok, hkeys⟩ :=
        ih (fun p hp => hall p (List.mem_cons_of_mem _ hp))
      refine ⟨(n0, { name := n0, func := fn, description := "" }) :: nodes0, ?_, ?_⟩
      · simp [resolveNodes, hl, hok]
      · intro k hk
        unfold dlookup at hk ⊢
        split at hk
        · cases hk
        · rename_i hne
          rw [if_neg hne]
          exact hkeys k hk

/-- Claim C5: `create_graph_from_spec` raises `KeyError` carrying a missing
node-function name when some spec entry names an unregistered function, and
raises `ValueError` when the start node is not among the declared node
names; in both failure cases the engine's graph table is untouched. -/
theorem create_graph_from_spec_errors (eng : Engine) (name : String)
    (node_specs : List (String × String)) (edges : List (String × Option String))
    (start_node : String) :
    ((∃ p, p ∈ node_specs ∧ dlookup p.2 eng.node_registry = none) →
      ∃ f, (eng.create_graph_from_spec name node_specs edges start_node).2
            = Except.error (PyErr.keyError f) ∧
        dlookup f eng.node_registry = none ∧ (∃ n, (n, f) ∈ node_specs) ∧
        (eng.create_graph_from_spec name node_specs edges start_node).1.graphs
          = eng.graphs) ∧
    ((∀ p, p ∈ node_specs → (dlookup p.2 eng.node_registry).isSome) →
      dlookup start_node node_specs = none →
      (eng.create_graph_from_spec name node_specs edges start_node).2
          = Except.error (PyErr.valueError
            ("start_node " ++ start_node ++ " not in nodes")) ∧
      (eng.create_graph_from_spec name node_specs edges start_node).1.graphs
        = eng.graphs) := by
  constructor
  · intro hmiss
    obtain ⟨f, hres, hnone, n, hmem⟩ :=
      resolveNodes_missing eng.node_registry node_specs hmiss
    refine ⟨f, ?_, hnone, ⟨n, hmem⟩, ?_⟩
    · simp only [Engine.create_graph_from_spec, hres]
    · simp only [Engine.create_graph_from_spec, hres]
  · intro hall hstart
    obtain ⟨nodes, hok, hkeys⟩ :=
      resolveNodes_all_ok eng.node_registry node_specs hall
    have hsn : dlookup start_node nodes = none := hkeys start_node hstart
    constructor
    · simp only [Engine.create_graph_from_spec, hok, hsn, Option.isSome_none,
        Bool.false_eq_true, if_false]
    · simp only [Engine.create_graph_from_spec, hok, hsn, Option.isSome_none,
        Bool.false_eq_true, if_false]

/-- A registered node function used by the registry fixture. -/
def regFn : NodeFn := fun s h => (Except.ok none, s, h)

def engReg : Engine :=
  { node_registry := [("known", regFn)], graphs := [], runs := [], nextId := 0 }

theorem create_graph_from_spec_errors_witness :
    (∃ f, (engReg.create_graph_from_spec "w" [("n1", "missing")] [] "n1").2
          = Except.error (PyErr.keyError f) ∧
      dlookup f engReg.node_registry = none ∧
      (∃ n, (n, f) ∈ [("n1", "missing")]) ∧
      (engReg.create_graph_from_spec "w" [("n1", "missing")] [] "n1").1.graphs
        = engReg.graphs) ∧
    ((engReg.create_graph_from_spec "w" [("n1", "known")] [] "zzz").2
        = Except.error (PyErr.valueError ("start_node " ++ "zzz" ++ " not in nodes")) ∧
     (engReg.create_graph_from_spec "w" [("n1", "known")] [] "zzz").1.graphs
        = engReg.graphs) := by
  constructor
  · exact (create_graph_from_spec_errors engReg "w" [("n1", "missing")] [] "n1").1
      ⟨("n1", "missing"), List.mem_cons_self _ _, rfl⟩
  · exact (create_graph_from_spec_errors engReg "w" [("n1", "known")] [] "zzz").2
      (by
        intro p hp
        rcases List.mem_cons.mp hp with rfl | h2
        · decide
        · cases h2)
      rfl

/-! ### Nested-mutation fixture: a heap cell shared between the caller's
state, the run's state, and the log snapshots -/

def mutHeap0 : Heap := [HObj.hList []]

def mutInit : Dict := [("xs", Value.vRef 0)]

def mutNodeA : NodeDef :=
  { name := "a", func := fun s h => (Except.ok none, s, h), description := "" }

/-- Node `b` mutates the shared nested list in place (appends `1`). -/
def mutNodeB : NodeDef :=
  { name := "b",
    func := fun s h => (Except.ok none, s, hset h 0 (HObj.hList [Value.vInt 1])),
    description := "" }

def mutGraph : GraphDef :=
  { id := "g-mut", name := "mut", nodes := [("a", mutNodeA), ("b", mutNodeB)],
    edges := [("a", some "b"), ("b", none)], start_node := "a" }

def engMut : Engine :=
  { node_registry := [], graphs := [("g-mut", mutGraph)], runs := [], nextId := 0 }

/-- Counterexample to claim C9 as stated: `run_graph` copies only the top
level of the caller's state (Python's `dict(initial_state or {})`), so a
node's in-place mutation of a nested value shared through `vRef 0` is
observable through the caller's `initial_state` mapping after the run. -/
theorem initial_state_aliasing_counterexample :
    readThrough mutHeap0 mutInit "xs" = some (HObj.hList []) ∧
    readThrough (engMut.run_graph "g-mut" (some mutInit) mutHeap0 10).heap
        mutInit "xs" = some (HObj.hList [Value.vInt 1]) ∧
    readThrough (engMut.run_graph "g-mut" (some mutInit) mutHeap0 10).heap
        mutInit "xs" ≠ readThrough mutHeap0 mutInit "xs" := by
  refine ⟨rfl, rfl, ?_⟩
  decide

/-- Claim C9 (amended): `run_graph` installs the graph's `start_node` as
the new record's `current_node` and copies `initial_state or {}` at top
level into a separate mapping, so node updates confined to the run's own
top-level mapping (node logic that leaves the heap of shared nested
objects untouched) are never observable through the caller's state; only
in-place mutation of nested values shared with the caller is observable
(see the counterexample). -/
theorem initial_state_isolation_amended (eng : Engine) (gid : String)
    (init : Option Dict) (heap : Heap) (ms : Nat) (g : GraphDef)
    (hg : dlookup gid eng.graphs = some g)
    (hpure : ∀ cn nd, dlookup cn g.nodes = some nd →
      ∀ (s : Dict) (h : Heap), (nd.func s h).2.2 = h) :
    (eng.run_graph gid init heap ms).heap = heap ∧
    (∀ k, readThrough (eng.run_graph gid init heap ms).heap (init.getD []) k
        = readThrough heap (init.getD []) k) ∧
    (eng.run_graph gid init heap 0).result = Except.ok
      { id := freshRunId eng, graph_id := gid, state := init.getD [],
        current_node := some g.start_node, log := [], finished := true } := by
  have hh : (eng.run_graph gid init heap ms).heap = heap := by
    rw [run_graph_eq eng gid init heap ms g hg]
    exact runLoop_heap g hpure ms (loopInit g init heap)
  refine ⟨hh, fun k => by rw [hh], ?_⟩
  rw [run_graph_eq eng gid init heap 0 g hg]
  rfl

theorem initial_state_isolation_amended_witness :
    (engLoop.run_graph "g-loop" none [] 5).heap = [] ∧
    (∀ k, readThrough (engLoop.run_graph "g-loop" none [] 5).heap
        ((none : Option Dict).getD []) k
      = readThrough [] ((none : Option Dict).getD []) k) ∧
    (engLoop.run_graph "g-loop" none [] 0).result = Except.ok
      { id := freshRunId engLoop, graph_id := "g-loop",
        state := (none : Option Dict).getD [],
        current_node := some loopGraph.start_node, log := [], finished := true } :=
  initial_state_isolation_amended engLoop "g-loop" none [] 5 loopGraph rfl
    (by
      intro cn nd hnd s h
      have hndeq := dlookup_singleton cn "extract" loopNode nd hnd
      subst hndeq
      rfl)

/-- Claim C3 at the failing input: log snapshots are Python `dict(...)`
shallow copies, not deep copies.  The step-0 `before` snapshot observes
`{"xs": []}` at snapshot time, but after the later node invocation mutates
the shared nested list in place the same snapshot observes
`{"xs": [1]}` — the log entry silently changed after the fact, violating
the spec's stability requirement for snapshots. -/
theorem snapshot_shallow_copy_bug :
    ∃ rec e0, (engMut.run_graph "g-mut" (some mutInit) mutHeap0 10).result
        = Except.ok rec ∧
      rec.log.head? = some e0 ∧
      e0.before = [("xs", Value.vRef 0)] ∧
      readThrough mutHeap0 e0.before "xs" = some (HObj.hList []) ∧
      readThrough (engMut.run_graph "g-mut" (some mutInit) mutHeap0 10).heap
          e0.before "xs" = some (HObj.hList [Value.vInt 1]) ∧
      readThrough (engMut.run_graph "g-mut" (some mutInit) mutHeap0 10).heap
          e0.before "xs" ≠ readThrough mutHeap0 e0.before "xs" := by
  refine ⟨_, _, rfl, rfl, rfl, rfl, rfl, ?_⟩
  decide
